import Mathlib

/-!
Shallow embedding of `drivers/char/gpiomem.c` (the sunxi-gpiomem character
device driver) together with proofs about its region-table construction
(`sunxi_gpiomem_probe`), its mmap admission control and mapping forwarding
(`sunxi_gpiomem_mmap`), and its open/release identity gate.

Machine integers: `unsigned long` on the ARMv7 sunxi platforms is 32 bits,
so arithmetic that the C code performs on `unsigned long` is modelled on
`Nat` reduced modulo `2 ^ 32` (`wadd`, `wsub`, `wshl`).  External
collaborators (the firmware property count, `platform_get_resource`,
`phys_mem_access_prot`, `remap_pfn_range`, the chardev/class/device
registration calls) are passed in as explicit oracle parameters, which is
exactly the information flow of the C code.
-/

/-- Linux errno values used by the driver (the driver returns them negated). -/
def ENOENT : Int := 2

def ENXIO : Int := 6

def EAGAIN : Int := 11

def ENOMEM : Int := 12

def EACCES : Int := 13

def EINVAL : Int := 22

/-- `PAGE_SHIFT` on the sunxi platforms (4 KiB pages). -/
def PAGE_SHIFT : Nat := 12

/-- Modulus of the C `unsigned long` type (32-bit on ARMv7 sunxi). -/
def ULONG_MOD : Nat := 2 ^ 32

/-- C `unsigned long` addition. -/
def wadd (a b : Nat) : Nat := (a + b) % ULONG_MOD

/-- C `unsigned long` subtraction (wraps modulo `2 ^ 32`). -/
def wsub (a b : Nat) : Nat := (a % ULONG_MOD + (ULONG_MOD - b % ULONG_MOD)) % ULONG_MOD

/-- C `unsigned long` left shift. -/
def wshl (a n : Nat) : Nat := (a <<< n) % ULONG_MOD

/-- `struct regs_phys` (gpiomem.c lines 32-35): one physical register window. -/
structure regs_phys where
  start : Nat
  «end» : Nat
deriving DecidableEq

/-- `#define DEVICE_MINOR 0` (gpiomem.c line 30). -/
def DEVICE_MINOR : Nat := 0

/-- `sunxi_gpiomem_open` (gpiomem.c lines 49-61): returns 0 on the recognized
minor, `- ENXIO` otherwise.  It reads nothing but the minor number and writes
no state. -/
def sunxi_gpiomem_open (minor : Nat) : Int :=
  if minor ≠ DEVICE_MINOR then - ENXIO else 0

/-- `sunxi_gpiomem_release` (gpiomem.c lines 63-73): the same identity check
as open; no state is read or written. -/
def sunxi_gpiomem_release (minor : Nat) : Int :=
  if minor ≠ DEVICE_MINOR then - ENXIO else 0

/-- The driver's `vm_operations_struct` constant (gpiomem.c lines 75-79). -/
inductive vm_operations where
  | sunxi_gpiomem_vm_ops : vm_operations
deriving DecidableEq

/-- The fields of `struct vm_area_struct` that `sunxi_gpiomem_mmap` reads or
writes. -/
structure vm_area_struct where
  vm_start : Nat
  vm_end : Nat
  vm_pgoff : Nat
  vm_page_prot : Nat
  vm_ops : Option vm_operations
deriving DecidableEq

/-- The argument tuple the driver passes to `remap_pfn_range`
(gpiomem.c lines 103-106). -/
structure remap_call where
  addr : Nat
  pfn : Nat
  size : Nat
  prot : Nat
deriving DecidableEq

/-- Result of one `sunxi_gpiomem_mmap` call: the returned error code, the
vma as the call leaves it, and the `remap_pfn_range` invocation it made
(if any). -/
structure mmap_result where
  ret : Int
  vma : vm_area_struct
  remap : Option remap_call
deriving DecidableEq

/-- `start = vma->vm_pgoff << PAGE_SHIFT` (gpiomem.c line 84). -/
def req_start (vma : vm_area_struct) : Nat := wshl vma.vm_pgoff PAGE_SHIFT

/-- `end = start + vma->vm_end - vma->vm_start` (gpiomem.c line 85),
evaluated left to right on `unsigned long`. -/
def req_end (vma : vm_area_struct) : Nat :=
  wsub (wadd (req_start vma) vma.vm_end) vma.vm_start

/-- The while loop of gpiomem.c lines 87-92: scan the region table in
storage order and return the first entry satisfying
`gpio_regs_phys[i].start >= start && gpio_regs_phys[i].end <= end`. -/
def findGpioArea (start «end» : Nat) : List regs_phys → Option regs_phys
  | [] => none
  | r :: rest =>
      if r.start ≥ start ∧ r.«end» ≤ «end» then some r
      else findGpioArea start «end» rest

/-- The vma after the `found:` label ran (gpiomem.c lines 96-101):
`vm_page_prot` is recomputed through `phys_mem_access_prot` and `vm_ops`
is pointed at `sunxi_gpiomem_vm_ops`. -/
def vma_after_found (pp : Nat → Nat → Nat → Nat) (vma : vm_area_struct) :
    vm_area_struct :=
  { vma with
    vm_page_prot := pp vma.vm_pgoff (wsub vma.vm_end vma.vm_start) vma.vm_page_prot,
    vm_ops := some vm_operations.sunxi_gpiomem_vm_ops }

/-- The arguments the driver hands to `remap_pfn_range` (gpiomem.c lines
103-106): the vma start, the request's own page offset, the request's own
length, and the protection just computed. -/
def remap_args (pp : Nat → Nat → Nat → Nat) (vma : vm_area_struct) : remap_call :=
  ⟨vma.vm_start, vma.vm_pgoff, wsub vma.vm_end vma.vm_start,
    (vma_after_found pp vma).vm_page_prot⟩

/-- `sunxi_gpiomem_mmap` (gpiomem.c lines 81-111).  `regs` is the region
table `inst->gpio_regs_phys[0 .. gpio_area_count)`, `pp` is the platform's
`phys_mem_access_prot`, and `rr` tells whether `remap_pfn_range` succeeds
on the given arguments. -/
def sunxi_gpiomem_mmap (regs : List regs_phys) (pp : Nat → Nat → Nat → Nat)
    (rr : Nat → Nat → Nat → Nat → Bool) (vma : vm_area_struct) : mmap_result :=
  match findGpioArea (req_start vma) (req_end vma) regs with
  | none => ⟨-EACCES, vma, none⟩
  | some _ =>
      if rr (remap_args pp vma).addr (remap_args pp vma).pfn
          (remap_args pp vma).size (remap_args pp vma).prot then
        ⟨0, vma_after_found pp vma, some (remap_args pp vma)⟩
      else
        ⟨-EAGAIN, vma_after_found pp vma, some (remap_args pp vma)⟩

/-- State of the global `inst` pointer at the moment a failure path of
`sunxi_gpiomem_probe` reaches the final `dev_err(inst->dev, ...)` at the
`failed_inst_alloc` label (gpiomem.c lines 209-210). -/
inductive ptr_state where
  | null : ptr_state
  | valid : ptr_state
  | freed : ptr_state
deriving DecidableEq

/-- Result of one `sunxi_gpiomem_probe` call: the returned error code, the
region table on success, and — when a failure path ran the final
`dev_err(inst->dev, ...)` log — the state of the `inst` pointer that log
dereferences. -/
structure probe_outcome where
  ret : Int
  table : Option (List regs_phys)
  final_log_inst : Option ptr_state
deriving DecidableEq

/-- The resource-filling for loop of gpiomem.c lines 150-160, with `n`
remaining iterations starting at index `i`: each index must resolve through
`platform_get_resource` (`g`), whose `start`/`end` are copied into the
table entry; an unresolved index aborts with `-ENOENT`
(`goto failed_get_resource`). -/
def fillFrom (g : Nat → Option regs_phys) (i : Nat) : Nat → Except Int (List regs_phys)
  | 0 => .ok []
  | n + 1 =>
      match g i with
      | some res =>
          match fillFrom g (i + 1) n with
          | .ok rest => .ok (⟨res.start, res.«end»⟩ :: rest)
          | .error e => .error e
      | none => .error (-ENOENT)

/-- `sunxi_gpiomem_probe` (gpiomem.c lines 121-212).  `alloc_ok` is whether
`kzalloc` of the instance succeeds; `reg_elems` is what
`of_property_count_elems_of_size(np, "reg", sizeof(u32))` returns (an `int`,
negative on error); `g` is `platform_get_resource` by index;
`chrdev_err`, `cdev_add_err`, `class_err`, `device_err` are the results of
the four registration steps (0 meaning success).  All failure paths fall
through the goto ladder to the final `dev_err(inst->dev, ...)`; the outcome
records the state of `inst` at that dereference. -/
def sunxi_gpiomem_probe (alloc_ok : Bool) (reg_elems : Int)
    (g : Nat → Option regs_phys)
    (chrdev_err cdev_add_err class_err device_err : Int) : probe_outcome :=
  if alloc_ok = false then
    ⟨-ENOMEM, none, some ptr_state.null⟩
  else
    if Int.tdiv reg_elems 4 > 32 ∨ Int.tdiv reg_elems 4 ≤ 0 then
      ⟨-EINVAL, none, some ptr_state.valid⟩
    else
      match fillFrom g 0 (Int.tdiv reg_elems 4).toNat with
      | .error e => ⟨e, none, some ptr_state.freed⟩
      | .ok regs =>
          if chrdev_err ≠ 0 then ⟨chrdev_err, none, some ptr_state.freed⟩
          else if cdev_add_err ≠ 0 then ⟨cdev_add_err, none, some ptr_state.freed⟩
          else if class_err ≠ 0 then ⟨class_err, none, some ptr_state.freed⟩
          else if device_err ≠ 0 then ⟨device_err, none, some ptr_state.freed⟩
          else ⟨0, some regs, none⟩

/-- A one-region table holding the PIO controller window of the spec's
scenario. -/
def table0 : List regs_phys := [⟨0x01C20800, 0x01C20900⟩]

/-- A `phys_mem_access_prot` oracle that keeps the protection unchanged. -/
def pp0 : Nat → Nat → Nat → Nat := fun _ _ p => p

/-- A `remap_pfn_range` oracle that always succeeds. -/
def rr_ok : Nat → Nat → Nat → Nat → Bool := fun _ _ _ _ => true

/-- A `remap_pfn_range` oracle that always fails. -/
def rr_fail : Nat → Nat → Nat → Nat → Bool := fun _ _ _ _ => false

/-- A concrete admitted request: pages `[0x01C20000, 0x01C21000)` (page
offset `0x01C20`, one page long), which covers the `table0` window. -/
def vma0 : vm_area_struct := ⟨0x1000, 0x2000, 0x01C20, 7, none⟩

/-- A second request with the same page offset and the same length as
`vma0` but a different virtual placement and protection. -/
def vma1 : vm_area_struct := ⟨0x3000, 0x4000, 0x01C20, 9, none⟩

/-- A `platform_get_resource` oracle on which every index resolves. -/
def g_all : Nat → Option regs_phys := fun _ => some ⟨0x01C20800, 0x01C20900⟩

/-- A `platform_get_resource` oracle on which only index 0 resolves. -/
def g_only0 : Nat → Option regs_phys :=
  fun i => if i = 0 then some ⟨0x01C20800, 0x01C20900⟩ else none

/-- Wrap-around subtraction after wrap-around addition equals wrap-around
addition of the wrap-around difference. -/
theorem wsub_wadd (a b c : Nat) : wsub (wadd a b) c = wadd a (wsub b c) := by
  simp only [wadd, wsub]
  have hM : ULONG_MOD = 4294967296 := by norm_num [ULONG_MOD]
  rw [hM]
  omega

/-- The requested end address is the requested start plus the request's
length, all on `unsigned long`. -/
theorem req_end_eq (vma : vm_area_struct) :
    req_end vma = wadd (req_start vma) (wsub vma.vm_end vma.vm_start) := by
  simp only [req_end]
  exact wsub_wadd _ _ _

/-- When every index in the window resolves, the fill loop succeeds and each
entry is the resolved resource of its index, in order. -/
theorem fillFrom_all_some (g : Nat → Option regs_phys) :
    ∀ n i, (∀ k, k < n → (g (i + k)).isSome) →
      ∃ l, fillFrom g i n = .ok l ∧ l.length = n ∧ ∀ k, k < n → l.get? k = g (i + k) := by
  intro n
  induction n with
  | zero =>
      intro i _
      exact ⟨[], rfl, rfl, fun k hk => absurd hk (Nat.not_lt_zero k)⟩
  | succ n ih =>
      intro i hall
      have h0 : (g (i + 0)).isSome := hall 0 (Nat.succ_pos n)
      cases hg : g i with
      | none => rw [Nat.add_zero] at h0; rw [hg] at h0; simp at h0
      | some res =>
          obtain ⟨l, hl, hlen, hget⟩ := ih (i + 1) (fun k hk => by
            have := hall (k + 1) (Nat.succ_lt_succ hk)
            rwa [Nat.add_comm k 1, ← Nat.add_assoc] at this)
          refine ⟨⟨res.start, res.«end»⟩ :: l, ?_, by simp [hlen], ?_⟩
          · simp only [fillFrom, hg, hl]
          · intro k hk
            cases k with
            | zero => simp [Nat.add_zero, hg]
            | succ k =>
                have h1 := hget k (Nat.lt_of_succ_lt_succ hk)
                have h2 : i + 1 + k = i + (k + 1) := by omega
                rw [h2] at h1
                simpa using h1

/-- Inversion for a successful fill: the produced list has one entry per
iteration and each entry is the resolved resource of its index. -/
theorem fillFrom_ok_inv (g : Nat → Option regs_phys) :
    ∀ n i l, fillFrom g i n = .ok l →
      l.length = n ∧ ∀ k, k < n → l.get? k = g (i + k) := by
  intro n
  induction n with
  | zero =>
      intro i l h
      simp only [fillFrom] at h
      injection h with h
      subst h
      exact ⟨rfl, fun k hk => absurd hk (Nat.not_lt_zero k)⟩
  | succ n ih =>
      intro i l h
      simp only [fillFrom] at h
      split at h
      case _ res hg =>
        split at h
        case _ rest hf =>
          injection h with h
          subst h
          obtain ⟨hlen, hget⟩ := ih (i + 1) rest hf
          constructor
          · simp [hlen]
          · intro k hk
            cases k with
            | zero => simp [hg]
            | succ k =>
                have h1 := hget k (Nat.lt_of_succ_lt_succ hk)
                have h2 : i + 1 + k = i + (k + 1) := by omega
                rw [h2] at h1
                simpa using h1
        case _ e hf => cases h
      case _ hg => cases h

/-- When some index in the window does not resolve, the fill loop fails
with `-ENOENT`. -/
theorem fillFrom_err (g : Nat → Option regs_phys) :
    ∀ n i, (∃ k, k < n ∧ g (i + k) = none) → fillFrom g i n = .error (-ENOENT) := by
  intro n
  induction n with
  | zero =>
      intro i h
      obtain ⟨k, hk, _⟩ := h
      exact absurd hk (Nat.not_lt_zero k)
  | succ n ih =>
      intro i h
      obtain ⟨k, hk, hnone⟩ := h
      cases hg : g i with
      | none => simp only [fillFrom, hg]
      | some res =>
          cases k with
          | zero =>
              rw [Nat.add_zero] at hnone
              rw [hnone] at hg
              cases hg
          | succ k =>
              have hrec : fillFrom g (i + 1) n = .error (-ENOENT) := by
                refine ih (i + 1) ⟨k, Nat.lt_of_succ_lt_succ hk, ?_⟩
                have h2 : i + 1 + k = i + (k + 1) := by omega
                rw [h2]
                exact hnone
              simp only [fillFrom, hg, hrec]

/-- Inversion for a probe that produced a table: the count check passed and
the fill loop succeeded on exactly `reg_elems / 4` (C truncating division)
iterations. -/
theorem probe_table_some_inv (reg_elems : Int) (g : Nat → Option regs_phys)
    (e1 e2 e3 e4 : Int) (tbl : List regs_phys)
    (h : (sunxi_gpiomem_probe true reg_elems g e1 e2 e3 e4).table = some tbl) :
    0 < Int.tdiv reg_elems 4 ∧ Int.tdiv reg_elems 4 ≤ 32 ∧
      fillFrom g 0 (Int.tdiv reg_elems 4).toNat = .ok tbl := by
  unfold sunxi_gpiomem_probe at h
  simp only [if_neg (by simp : ¬(true = false))] at h
  split at h
  · cases h
  case _ hcnt =>
    push_neg at hcnt
    split at h
    case _ e hf => cases h
    case _ regs hf =>
      refine ⟨by omega, by omega, ?_⟩
      split at h
      · cases h
      split at h
      · cases h
      split at h
      · cases h
      split at h
      · cases h
      injection h with h
      subst h
      exact hf

/-- A probe whose count check passes, whose resources all resolve, and whose
registration steps all succeed returns the filled table. -/
theorem probe_success (reg_elems : Int) (g : Nat → Option regs_phys)
    (l : List regs_phys) (h1 : 0 < Int.tdiv reg_elems 4)
    (h2 : Int.tdiv reg_elems 4 ≤ 32)
    (hf : fillFrom g 0 (Int.tdiv reg_elems 4).toNat = .ok l) :
    sunxi_gpiomem_probe true reg_elems g 0 0 0 0 = ⟨0, some l, none⟩ := by
  unfold sunxi_gpiomem_probe
  simp only [if_neg (by simp : ¬(true = false))]
  rw [if_neg (by omega)]
  rw [hf]
  simp

/-- Case analysis of one `sunxi_gpiomem_mmap` call: either no region matched
and the call returns `-EACCES` with the vma untouched and no remap call, or
a region matched, the vma was updated by the `found:` code, the request's own
range was handed to `remap_pfn_range`, and the return value is 0 or `-EAGAIN`
according to that call's outcome. -/
theorem mmap_spec (regs : List regs_phys) (pp : Nat → Nat → Nat → Nat)
    (rr : Nat → Nat → Nat → Nat → Bool) (vma : vm_area_struct) :
    (findGpioArea (req_start vma) (req_end vma) regs = none ∧
      sunxi_gpiomem_mmap regs pp rr vma = ⟨-EACCES, vma, none⟩) ∨
    ((findGpioArea (req_start vma) (req_end vma) regs).isSome = true ∧
      ((rr (remap_args pp vma).addr (remap_args pp vma).pfn
          (remap_args pp vma).size (remap_args pp vma).prot = true ∧
        sunxi_gpiomem_mmap regs pp rr vma =
          ⟨0, vma_after_found pp vma, some (remap_args pp vma)⟩) ∨
       (rr (remap_args pp vma).addr (remap_args pp vma).pfn
          (remap_args pp vma).size (remap_args pp vma).prot = false ∧
        sunxi_gpiomem_mmap regs pp rr vma =
          ⟨-EAGAIN, vma_after_found pp vma, some (remap_args pp vma)⟩))) := by
  cases hfind : findGpioArea (req_start vma) (req_end vma) regs with
  | none =>
      left
      exact ⟨rfl, by simp only [sunxi_gpiomem_mmap, hfind]⟩
  | some r =>
      right
      refine ⟨rfl, ?_⟩
      cases hrr : rr (remap_args pp vma).addr (remap_args pp vma).pfn
          (remap_args pp vma).size (remap_args pp vma).prot with
      | true =>
          left
          exact ⟨rfl, by simp only [sunxi_gpiomem_mmap, hfind, hrr, if_true]⟩
      | false =>
          right
          exact ⟨rfl, by simp [sunxi_gpiomem_mmap, hfind, hrr]⟩

/-- A hit of the region-table scan is the first entry, in storage order,
satisfying the scan's test. -/
theorem findGpioArea_first (s e : Nat) :
    ∀ l r, findGpioArea s e l = some r →
      ∃ i, ∃ hi : i < l.length,
        l.get ⟨i, hi⟩ = r ∧ (r.start ≥ s ∧ r.«end» ≤ e) ∧
        ∀ j, ∀ hj : j < l.length, j < i →
          ¬((l.get ⟨j, hj⟩).start ≥ s ∧ (l.get ⟨j, hj⟩).«end» ≤ e) := by
  intro l
  induction l with
  | nil => intro r h; cases h
  | cons a rest ih =>
      intro r h
      simp only [findGpioArea] at h
      split at h
      case _ hcond =>
        injection h with h
        subst h
        exact ⟨0, Nat.succ_pos rest.length, rfl, hcond,
          fun j hj hj0 => absurd hj0 (Nat.not_lt_zero j)⟩
      case _ hcond =>
        obtain ⟨i, hi, hget, hpred, hmin⟩ := ih r h
        refine ⟨i + 1, Nat.succ_lt_succ hi, hget, hpred, ?_⟩
        intro j hj hji
        cases j with
        | zero => exact hcond
        | succ j => exact hmin j (Nat.lt_of_succ_lt_succ hj) (Nat.lt_of_succ_lt_succ hji)

/-- The mmap call returns `-EACCES` exactly when the region-table scan found
no entry for the request. -/
theorem mmap_ret_eacces_iff (regs : List regs_phys) (pp : Nat → Nat → Nat → Nat)
    (rr : Nat → Nat → Nat → Nat → Bool) (vma : vm_area_struct) :
    (sunxi_gpiomem_mmap regs pp rr vma).ret = -EACCES ↔
      findGpioArea (req_start vma) (req_end vma) regs = none := by
  rcases mmap_spec regs pp rr vma with ⟨hfind, heq⟩ | ⟨hfind, ⟨_, heq⟩ | ⟨_, heq⟩⟩
  · rw [heq]
    simp [hfind]
  · rw [heq]
    constructor
    · intro h
      simp [EACCES] at h
    · intro h
      rw [h] at hfind
      cases hfind
  · rw [heq]
    constructor
    · intro h
      simp [EACCES, EAGAIN] at h
    · intro h
      rw [h] at hfind
      cases hfind

/-- C1: the admission check of `sunxi_gpiomem_mmap` (gpiomem.c lines 88-89)
decides the opposite of the claimed containment on the spec's own scenario
table `[0x01C20800, 0x01C20900)`: the request `[0x01C20800, 0x01C20880)`,
which IS fully contained in the region (third conjunct), is rejected by the
scan (first conjunct), while the request `[0x01C20700, 0x01C20900)`, which
is NOT contained because it starts before the region (fourth conjunct), is
accepted (second conjunct).  The code compares
`region.start >= req_start && region.end <= req_end`, admitting a request
iff the region is contained in the request. -/
theorem admission_check_inverted_on_spec_scenario :
    findGpioArea 0x01C20800 0x01C20880 table0 = none ∧
    findGpioArea 0x01C20700 0x01C20900 table0 = some ⟨0x01C20800, 0x01C20900⟩ ∧
    ((0x01C20800 : Nat) ≤ 0x01C20800 ∧ (0x01C20880 : Nat) ≤ 0x01C20900) ∧
    ¬((0x01C20800 : Nat) ≤ 0x01C20700) := by
  decide

/-- C4: `sunxi_gpiomem_open` succeeds (returns 0) exactly on the single
recognized minor number `DEVICE_MINOR`, returns `- ENXIO` (no such device)
exactly on every other minor, and `sunxi_gpiomem_release` applies the very
same identity check; both are pure functions of the minor alone — they
touch no session state and consume no resource. -/
theorem open_release_identity_gate (minor : Nat) :
    (sunxi_gpiomem_open minor = 0 ↔ minor = DEVICE_MINOR) ∧
    (sunxi_gpiomem_open minor = - ENXIO ↔ minor ≠ DEVICE_MINOR) ∧
    sunxi_gpiomem_release minor = sunxi_gpiomem_open minor := by
  refine ⟨?_, ?_, rfl⟩ <;>
    by_cases h : minor = DEVICE_MINOR <;>
      simp [sunxi_gpiomem_open, h, ENXIO]

/-- C10: on the probe failure path where `kzalloc` of the driver instance
fails, the fall-through to `failed_inst_alloc` executes
`dev_err(inst->dev, ...)` (gpiomem.c line 210) while the global `inst`
pointer is still NULL: the final error log dereferences a null instance
pointer, for every value of the other probe inputs. -/
theorem probe_alloc_failure_logs_null_inst (reg_elems : Int)
    (g : Nat → Option regs_phys) (e1 e2 e3 e4 : Int) :
    (sunxi_gpiomem_probe false reg_elems g e1 e2 e3 e4).final_log_inst =
      some ptr_state.null ∧
    (sunxi_gpiomem_probe false reg_elems g e1 e2 e3 e4).ret = -ENOMEM := by
  exact ⟨rfl, rfl⟩

/-- C2: whenever admission succeeds (the call does not return `-EACCES`),
the driver makes exactly one `remap_pfn_range` call, and the physical page
range it forwards is exactly the request's own page offset and the
request's own length (with the caller's own virtual start) — taken from the
request, never from the matched region's bounds. -/
theorem mmap_forwards_requested_range (regs : List regs_phys)
    (pp : Nat → Nat → Nat → Nat) (rr : Nat → Nat → Nat → Nat → Bool)
    (vma : vm_area_struct)
    (h : (sunxi_gpiomem_mmap regs pp rr vma).ret ≠ -EACCES) :
    ∃ c, (sunxi_gpiomem_mmap regs pp rr vma).remap = some c ∧
      c.pfn = vma.vm_pgoff ∧ c.size = wsub vma.vm_end vma.vm_start ∧
      c.addr = vma.vm_start := by
  rcases mmap_spec regs pp rr vma with ⟨_, heq⟩ | ⟨_, ⟨_, heq⟩ | ⟨_, heq⟩⟩
  · rw [heq] at h
    simp at h
  · exact ⟨remap_args pp vma, by rw [heq], rfl, rfl, rfl⟩
  · exact ⟨remap_args pp vma, by rw [heq], rfl, rfl, rfl⟩

/-- Witness for C2 at a concrete admitted request: `vma0` against `table0`. -/
theorem mmap_forwards_requested_range_witness :
    ∃ c, (sunxi_gpiomem_mmap table0 pp0 rr_ok vma0).remap = some c ∧
      c.pfn = vma0.vm_pgoff ∧ c.size = wsub vma0.vm_end vma0.vm_start ∧
      c.addr = vma0.vm_start :=
  mmap_forwards_requested_range table0 pp0 rr_ok vma0 (by decide)

/-- C9: a denied mapping request (return value `-EACCES`) leaves the
caller's vma completely unmodified — in particular `vm_page_prot` and
`vm_ops` keep their incoming values — and no `remap_pfn_range` call is
made. -/
theorem mmap_denied_leaves_vma_unmodified (regs : List regs_phys)
    (pp : Nat → Nat → Nat → Nat) (rr : Nat → Nat → Nat → Nat → Bool)
    (vma : vm_area_struct)
    (h : (sunxi_gpiomem_mmap regs pp rr vma).ret = -EACCES) :
    (sunxi_gpiomem_mmap regs pp rr vma).vma = vma ∧
    ((sunxi_gpiomem_mmap regs pp rr vma).vma).vm_page_prot = vma.vm_page_prot ∧
    ((sunxi_gpiomem_mmap regs pp rr vma).vma).vm_ops = vma.vm_ops ∧
    (sunxi_gpiomem_mmap regs pp rr vma).remap = none := by
  have hfind := (mmap_ret_eacces_iff regs pp rr vma).1 h
  simp [sunxi_gpiomem_mmap, hfind]

/-- Witness for C9 at a concrete denied request: `vma0` against the table
whose only region starts before the request window. -/
theorem mmap_denied_leaves_vma_unmodified_witness :
    (sunxi_gpiomem_mmap [⟨0x01C00000, 0x01C00100⟩] pp0 rr_ok vma0).vma = vma0 ∧
    ((sunxi_gpiomem_mmap [⟨0x01C00000, 0x01C00100⟩] pp0 rr_ok vma0).vma).vm_page_prot =
      vma0.vm_page_prot ∧
    ((sunxi_gpiomem_mmap [⟨0x01C00000, 0x01C00100⟩] pp0 rr_ok vma0).vma).vm_ops =
      vma0.vm_ops ∧
    (sunxi_gpiomem_mmap [⟨0x01C00000, 0x01C00100⟩] pp0 rr_ok vma0).remap = none :=
  mmap_denied_leaves_vma_unmodified [⟨0x01C00000, 0x01C00100⟩] pp0 rr_ok vma0 (by decide)

/-- C5: a map call has exactly three outcomes — success (0), access denied
(`-EACCES`), or remap failure (`-EAGAIN`); it returns `-EACCES` exactly when
no region matches, it returns `-EAGAIN` exactly when a `remap_pfn_range`
call was made and failed, and the two error codes are distinct. -/
theorem mmap_failure_outcomes (regs : List regs_phys)
    (pp : Nat → Nat → Nat → Nat) (rr : Nat → Nat → Nat → Nat → Bool)
    (vma : vm_area_struct) :
    ((sunxi_gpiomem_mmap regs pp rr vma).ret = 0 ∨
     (sunxi_gpiomem_mmap regs pp rr vma).ret = -EACCES ∨
     (sunxi_gpiomem_mmap regs pp rr vma).ret = -EAGAIN) ∧
    ((sunxi_gpiomem_mmap regs pp rr vma).ret = -EACCES ↔
      findGpioArea (req_start vma) (req_end vma) regs = none) ∧
    ((sunxi_gpiomem_mmap regs pp rr vma).ret = -EAGAIN ↔
      ∃ c, (sunxi_gpiomem_mmap regs pp rr vma).remap = some c ∧
        rr c.addr c.pfn c.size c.prot = false) ∧
    (-EACCES : Int) ≠ -EAGAIN := by
  refine ⟨?_, mmap_ret_eacces_iff regs pp rr vma, ?_, by decide⟩
  · rcases mmap_spec regs pp rr vma with ⟨_, heq⟩ | ⟨_, ⟨_, heq⟩ | ⟨_, heq⟩⟩
    · rw [heq]
      exact Or.inr (Or.inl rfl)
    · rw [heq]
      exact Or.inl rfl
    · rw [heq]
      exact Or.inr (Or.inr rfl)
  · rcases mmap_spec regs pp rr vma with ⟨hfind, heq⟩ | ⟨hfind, ⟨hrr, heq⟩ | ⟨hrr, heq⟩⟩
    · rw [heq]
      constructor
      · intro h
        simp [EACCES, EAGAIN] at h
      · rintro ⟨c, hc, -⟩
        simp at hc
    · rw [heq]
      constructor
      · intro h
        simp [EAGAIN] at h
      · rintro ⟨c, hc, hfalse⟩
        simp only [Option.some.injEq] at hc
        subst hc
        rw [hrr] at hfalse
        cases hfalse
    · rw [heq]
      constructor
      · intro _
        exact ⟨remap_args pp vma, rfl, hrr⟩
      · intro _
        rfl

/-- C3: with the instance allocated, a computed region count that is zero,
negative, or above the capacity of 32 makes probe abort with `-EINVAL` and
produce no table, whatever the remaining inputs; a count of exactly 32
passes the count validation — when all 32 resources then resolve and the
registration steps succeed, probe returns a 32-entry table. -/
theorem probe_capacity_bound (reg_elems : Int) (g : Nat → Option regs_phys)
    (e1 e2 e3 e4 : Int) :
    (Int.tdiv reg_elems 4 ≤ 0 ∨ 32 < Int.tdiv reg_elems 4 →
      sunxi_gpiomem_probe true reg_elems g e1 e2 e3 e4 =
        ⟨-EINVAL, none, some ptr_state.valid⟩) ∧
    (Int.tdiv reg_elems 4 = 32 → (∀ i, (g i).isSome) →
      ∃ tbl, (sunxi_gpiomem_probe true reg_elems g 0 0 0 0).ret = 0 ∧
        (sunxi_gpiomem_probe true reg_elems g 0 0 0 0).table = some tbl ∧
        tbl.length = 32) := by
  constructor
  · intro h
    unfold sunxi_gpiomem_probe
    simp only [if_neg (by simp : ¬(true = false))]
    rw [if_pos (by omega : Int.tdiv reg_elems 4 > 32 ∨ Int.tdiv reg_elems 4 ≤ 0)]
  · intro h32 hall
    have hpos : 0 < Int.tdiv reg_elems 4 := by omega
    obtain ⟨l, hf, hlen, -⟩ := fillFrom_all_some g (Int.tdiv reg_elems 4).toNat 0
      (fun k _ => hall (0 + k))
    have hp := probe_success reg_elems g l hpos (by omega) hf
    refine ⟨l, ?_, ?_, ?_⟩
    · rw [hp]
    · rw [hp]
    · rw [hlen, h32]
      rfl

/-- Witness for C3: a zero element count is rejected with `-EINVAL`, and a
count of exactly 32 (128 raw elements) yields a 32-entry table. -/
theorem probe_capacity_bound_witness :
    (sunxi_gpiomem_probe true 0 g_all 1 2 3 4 =
      ⟨-EINVAL, none, some ptr_state.valid⟩) ∧
    ∃ tbl, (sunxi_gpiomem_probe true 128 g_all 0 0 0 0).ret = 0 ∧
      (sunxi_gpiomem_probe true 128 g_all 0 0 0 0).table = some tbl ∧
      tbl.length = 32 :=
  ⟨(probe_capacity_bound 0 g_all 1 2 3 4).1 (by decide),
   (probe_capacity_bound 128 g_all 0 0 0 0).2 (by decide) (fun _ => rfl)⟩

/-- C6: with the count check passed, an index that fails to resolve makes
probe abort with `-ENOENT` and produce no table; and any table probe does
produce has exactly one entry per counted region, each entry being the
resolved resource of its index, in order. -/
theorem probe_resource_resolution (reg_elems : Int) (g : Nat → Option regs_phys)
    (e1 e2 e3 e4 : Int) :
    (0 < Int.tdiv reg_elems 4 → Int.tdiv reg_elems 4 ≤ 32 →
      (∃ i, i < (Int.tdiv reg_elems 4).toNat ∧ g i = none) →
      (sunxi_gpiomem_probe true reg_elems g e1 e2 e3 e4).ret = -ENOENT ∧
      (sunxi_gpiomem_probe true reg_elems g e1 e2 e3 e4).table = none) ∧
    (∀ tbl, (sunxi_gpiomem_probe true reg_elems g e1 e2 e3 e4).table = some tbl →
      tbl.length = (Int.tdiv reg_elems 4).toNat ∧
      ∀ j, j < (Int.tdiv reg_elems 4).toNat → tbl.get? j = g j) := by
  constructor
  · intro h1 h2 hex
    obtain ⟨i, hi, hnone⟩ := hex
    have hf : fillFrom g 0 (Int.tdiv reg_elems 4).toNat = .error (-ENOENT) :=
      fillFrom_err g (Int.tdiv reg_elems 4).toNat 0 ⟨i, hi, by simpa using hnone⟩
    unfold sunxi_gpiomem_probe
    simp only [if_neg (by simp : ¬(true = false))]
    rw [if_neg (by omega : ¬(Int.tdiv reg_elems 4 > 32 ∨ Int.tdiv reg_elems 4 ≤ 0)), hf]
    exact ⟨rfl, rfl⟩
  · intro tbl h
    obtain ⟨-, -, hf⟩ := probe_table_some_inv reg_elems g e1 e2 e3 e4 tbl h
    obtain ⟨hlen, hget⟩ := fillFrom_ok_inv g (Int.tdiv reg_elems 4).toNat 0 tbl hf
    exact ⟨hlen, fun j hj => by simpa using hget j hj⟩

/-- Witness for C6: with 8 raw elements (count 2) and only index 0
resolving, probe fails with `-ENOENT` and produces no table. -/
theorem probe_resource_resolution_witness :
    (sunxi_gpiomem_probe true 8 g_only0 0 0 0 0).ret = -ENOENT ∧
    (sunxi_gpiomem_probe true 8 g_only0 0 0 0 0).table = none :=
  (probe_resource_resolution 8 g_only0 0 0 0 0).1 (by decide) (by decide)
    ⟨1, by decide, by decide⟩

/-- C7: any table probe produces has `reg_elems / 4` entries, where the
division is C truncating integer division of the raw element count reported
by the platform — each region descriptor is assumed to occupy exactly 4
underlying `u32` fields, and up to 3 remainder elements are silently
discarded from the effective table. -/
theorem probe_region_count_div4 (reg_elems : Int) (g : Nat → Option regs_phys)
    (e1 e2 e3 e4 : Int) (tbl : List regs_phys)
    (h : (sunxi_gpiomem_probe true reg_elems g e1 e2 e3 e4).table = some tbl) :
    (tbl.length : Int) = Int.tdiv reg_elems 4 ∧
    4 * (tbl.length : Int) ≤ reg_elems ∧ reg_elems < 4 * (tbl.length : Int) + 4 := by
  obtain ⟨hpos, -, hf⟩ := probe_table_some_inv reg_elems g e1 e2 e3 e4 tbl h
  obtain ⟨hlen, -⟩ := fillFrom_ok_inv g (Int.tdiv reg_elems 4).toNat 0 tbl hf
  have hnn : 0 ≤ reg_elems := by
    by_contra hneg
    push_neg at hneg
    have hrw : Int.tdiv reg_elems 4 = -(Int.tdiv (-reg_elems) 4) := by
      rw [← Int.neg_tdiv, neg_neg]
    have hge : 0 ≤ Int.tdiv (-reg_elems) 4 := Int.tdiv_nonneg (by omega) (by norm_num)
    omega
  have heq : (tbl.length : Int) = Int.tdiv reg_elems 4 := by
    rw [hlen, Int.toNat_of_nonneg (le_of_lt hpos)]
  refine ⟨heq, ?_, ?_⟩ <;>
  · rw [heq, Int.tdiv_eq_ediv hnn (by norm_num)]
    omega

/-- Witness for C7: 5 raw elements yield a 1-entry table (5 tdiv 4 = 1, one
remainder element discarded). -/
theorem probe_region_count_div4_witness :
    ((([⟨0x01C20800, 0x01C20900⟩] : List regs_phys).length : Int) = Int.tdiv 5 4) ∧
    4 * (([⟨0x01C20800, 0x01C20900⟩] : List regs_phys).length : Int) ≤ 5 ∧
    (5 : Int) < 4 * (([⟨0x01C20800, 0x01C20900⟩] : List regs_phys).length : Int) + 4 :=
  probe_region_count_div4 5 g_all 0 0 0 0 [⟨0x01C20800, 0x01C20900⟩] (by decide)

/-- C8: admission control is deterministic and first-match.  Two map calls
against the same region table whose requests have the same page offset and
the same length get the same admit/deny decision, whatever their other vma
fields and whatever the platform oracles did in between (the table is a
pure input, so no interleaved request can perturb the decision); and any
hit of the scan is the first entry, in storage order, satisfying the
scan's test. -/
theorem admission_deterministic_first_match (regs : List regs_phys)
    (pp1 pp2 : Nat → Nat → Nat → Nat) (rr1 rr2 : Nat → Nat → Nat → Nat → Bool)
    (va vb : vm_area_struct)
    (hpg : va.vm_pgoff = vb.vm_pgoff)
    (hln : wsub va.vm_end va.vm_start = wsub vb.vm_end vb.vm_start) :
    ((sunxi_gpiomem_mmap regs pp1 rr1 va).ret = -EACCES ↔
      (sunxi_gpiomem_mmap regs pp2 rr2 vb).ret = -EACCES) ∧
    (∀ r, findGpioArea (req_start va) (req_end va) regs = some r →
      ∃ i, ∃ hi : i < regs.length, regs.get ⟨i, hi⟩ = r ∧
        (r.start ≥ req_start va ∧ r.«end» ≤ req_end va) ∧
        ∀ j, ∀ hj : j < regs.length, j < i →
          ¬((regs.get ⟨j, hj⟩).start ≥ req_start va ∧
            (regs.get ⟨j, hj⟩).«end» ≤ req_end va)) := by
  have hs : req_start va = req_start vb := by
    simp [req_start, hpg]
  have he : req_end va = req_end vb := by
    rw [req_end_eq, req_end_eq, hs, hln]
  constructor
  · rw [mmap_ret_eacces_iff, mmap_ret_eacces_iff, hs, he]
  · exact findGpioArea_first (req_start va) (req_end va) regs

/-- Witness for C8: the requests `vma0` and `vma1` share page offset and
length; against `table0` both are admitted, under different protection
oracles and different remap outcomes. -/
theorem admission_deterministic_first_match_witness :
    (((sunxi_gpiomem_mmap table0 pp0 rr_ok vma0).ret = -EACCES ↔
       (sunxi_gpiomem_mmap table0 pp0 rr_fail vma1).ret = -EACCES)) ∧
    (∀ r, findGpioArea (req_start vma0) (req_end vma0) table0 = some r →
      ∃ i, ∃ hi : i < table0.length, table0.get ⟨i, hi⟩ = r ∧
        (r.start ≥ req_start vma0 ∧ r.«end» ≤ req_end vma0) ∧
        ∀ j, ∀ hj : j < table0.length, j < i →
          ¬((table0.get ⟨j, hj⟩).start ≥ req_start vma0 ∧
            (table0.get ⟨j, hj⟩).«end» ≤ req_end vma0)) :=
  admission_deterministic_first_match table0 pp0 pp0 rr_ok rr_fail vma0 vma1
    (by decide) (by decide)
